import Mathlib

/-!
Verification of the mytodo application core: the ordered-list document model,
the undo command set, the command log, cross-list transfer, and persistence.

Each definition is a shallow embedding of the corresponding Python code:
* `MyTodo.ListWidget.*` — list_widget.py `TodoListWidget` row operations
  (rows are represented by their texts; Qt `insertItem` clamps out-of-range
  rows, `takeItem` ignores invalid rows).
* `MyTodo.Window.*` — window.py tab-level operations.
* `MyTodo.Command` — undo_commands.py command classes, with `redo`/`undo`.
* `MyTodo.Storage.*` — storage.py at the level of the raw record structure
  written to / read from the TOML file (the TOML text encoding of that
  structure is an external library and is treated as faithful).
* `MyTodo.Data.*` — data.py `AppData`, with Python `list` index semantics
  (negative wraparound, `pop` raising on out-of-range, `insert` clamping).
Fallible operations (Python code that can raise, or Qt lookups of a widget
that does not exist) return `Option`; a `none` models the exception.
-/

namespace MyTodo

/-- A single todo list: data.py `TodoList` — a name and ordered item texts. -/
structure TodoList where
  name : String
  items : List String
deriving DecidableEq, Repr

/-- The document: the ordered sequence of lists (tab order). -/
abbrev Doc := List TodoList

namespace ListWidget

/-- Qt `QListWidget.insertItem`: an out-of-range row is clamped into
`[0, count]` (insertion past the end appends). -/
def insertRow (l : List String) (i : Nat) (x : String) : List String :=
  l.insertIdx (min i l.length) x

/-- list_widget.py `set_item_text`: `self.item(index)` returns null for an
invalid row, guarded by `if item:`, so out of range is a no-op. -/
def set_item_text (l : List String) (i : Nat) (x : String) : List String :=
  match l[i]? with
  | none => l
  | some _ => l.set i x

/-- list_widget.py `_move_row`: take the row at `from_index` (null row means
an exception, modelled as `none`), adjust the target after removal
(`actual_to = to_index if to_index <= from_index else to_index - 1`), and
reinsert the text there. -/
def _move_row (l : List String) (from_index to_index : Nat) : Option (List String) :=
  match l[from_index]? with
  | none => none
  | some text =>
    let rest := l.eraseIdx from_index
    let actual_to := if to_index ≤ from_index then to_index else to_index - 1
    some (insertRow rest actual_to text)

/-- list_widget.py `move_item_to_top`: no-op at index 0, else `_move_row(index, 0)`. -/
def move_item_to_top (l : List String) (index : Nat) : Option (List String) :=
  if index = 0 then some l else _move_row l index 0

/-- list_widget.py `move_item_from_top`: `_move_row(0, original_index)`. -/
def move_item_from_top (l : List String) (original_index : Nat) : Option (List String) :=
  _move_row l 0 original_index

/-- list_widget.py `reorder_item`: `_move_row(from_index, to_index)`. -/
def reorder_item (l : List String) (from_index to_index : Nat) : Option (List String) :=
  _move_row l from_index to_index

/-- list_widget.py `append_item`. -/
def append_item (l : List String) (x : String) : List String :=
  l ++ [x]

/-- list_widget.py `remove_last_item`: guarded, removes `count - 1` only when
`count > 0`. -/
def remove_last_item (l : List String) : List String :=
  if 0 < l.length then l.eraseIdx (l.length - 1) else l

/-- list_widget.py `remove_item`: Qt `takeItem` on an invalid row does
nothing (`List.eraseIdx` out of range is the identity). -/
def remove_item (l : List String) (i : Nat) : List String :=
  l.eraseIdx i

/-- list_widget.py `insert_item`: Qt `insertItem` clamps the row. -/
def insert_item (l : List String) (i : Nat) (x : String) : List String :=
  insertRow l i x

end ListWidget

namespace Window

/-- Apply `f` to the items of the list at tab index `li`; the widget lookup
fails (`none`) when no such tab exists. Used for commands holding a live
widget reference, which is valid exactly when the tab index resolves. -/
def onItems (d : Doc) (li : Nat) (f : List String → List String) : Option Doc :=
  match d[li]? with
  | none => none
  | some tl => some (d.set li { tl with items := f tl.items })

/-- As `onItems` for a row operation that can itself fail. -/
def onItemsOpt (d : Doc) (li : Nat) (f : List String → Option (List String)) : Option Doc :=
  match d[li]? with
  | none => none
  | some tl =>
    match f tl.items with
    | none => none
    | some its => some (d.set li { tl with items := its })

/-- window.py `transfer_item`: look up both widgets, then
`src.remove_item(from_item); dst.insert_item(to_item, text)`. -/
def transfer_item (d : Doc) (from_list from_item to_list to_item : Nat)
    (text : String) : Option Doc :=
  match d[from_list]?, d[to_list]? with
  | some _, some _ =>
    match onItems d from_list (fun l => ListWidget.remove_item l from_item) with
    | none => none
    | some d1 => onItems d1 to_list (fun l => ListWidget.insert_item l to_item text)
  | _, _ => none

/-- window.py `move_tab_to_front`: no-op when the indices agree, else remove
the tab at `from_index` and reinsert it at `to_index` (Qt `insertTab` clamps
an out-of-range position). An invalid `from_index` hands a null widget to
Qt, modelled as `none`. -/
def move_tab_to_front (d : Doc) (from_index to_index : Nat) : Option Doc :=
  if from_index = to_index then some d
  else
    match d[from_index]? with
    | none => none
    | some tl =>
      let rest := d.eraseIdx from_index
      some (rest.insertIdx (min to_index rest.length) tl)

/-- window.py `rename_tab`: Qt `setTabText` ignores an invalid index. -/
def rename_tab (d : Doc) (index : Nat) (new_name : String) : Doc :=
  match d[index]? with
  | none => d
  | some tl => d.set index { tl with name := new_name }

end Window

/-- undo_commands.py: one constructor per `QUndoCommand` subclass, holding
the state captured at construction. A widget reference is represented by the
tab index of the widget it points at. -/
inductive Command where
  | editItem (li item_index : Nat) (old_text new_text : String)
  | moveItemToTop (li item_index : Nat)
  | reorderItem (li from_index to_index : Nat)
  | moveItemBetweenLists (from_list from_item to_list to_item : Nat) (text : String)
  | moveListToFront (list_index : Nat)
  | addItem (li : Nat) (text : String)
  | deleteItem (li item_index : Nat) (text : String)
  | renameTab (index : Nat) (old_name new_name : String)
deriving DecidableEq, Repr

/-- undo_commands.py `redo` methods, verbatim per class. -/
def Command.redo : Command → Doc → Option Doc
  | .editItem li i _old new, d => Window.onItems d li (fun l => ListWidget.set_item_text l i new)
  | .moveItemToTop li i, d => Window.onItemsOpt d li (fun l => ListWidget.move_item_to_top l i)
  | .reorderItem li f t, d => Window.onItemsOpt d li (fun l => ListWidget.reorder_item l f t)
  | .moveItemBetweenLists fl fi tl ti x, d => Window.transfer_item d fl fi tl ti x
  | .moveListToFront li, d => Window.move_tab_to_front d li 0
  | .addItem li x, d => Window.onItems d li (fun l => ListWidget.append_item l x)
  | .deleteItem li i _x, d => Window.onItems d li (fun l => ListWidget.remove_item l i)
  | .renameTab i _old new, d => some (Window.rename_tab d i new)

/-- undo_commands.py `undo` methods, verbatim per class. -/
def Command.undo : Command → Doc → Option Doc
  | .editItem li i old _new, d => Window.onItems d li (fun l => ListWidget.set_item_text l i old)
  | .moveItemToTop li i, d => Window.onItemsOpt d li (fun l => ListWidget.move_item_from_top l i)
  | .reorderItem li f t, d => Window.onItemsOpt d li (fun l => ListWidget.reorder_item l t f)
  | .moveItemBetweenLists fl fi tl ti x, d => Window.transfer_item d tl ti fl fi x
  | .moveListToFront li, d => Window.move_tab_to_front d 0 li
  | .addItem li _x, d => Window.onItems d li ListWidget.remove_last_item
  | .deleteItem li i x, d => Window.onItems d li (fun l => ListWidget.insert_item l i x)
  | .renameTab i old _new, d => some (Window.rename_tab d i old)

namespace Storage

/-- One record of the persisted file: storage.py writes a table with keys
`name` and `items` per list; on load both keys are read with `.get` and a
default, so they are optional. -/
structure RawList where
  name : Option String
  items : Option (List String)
deriving DecidableEq, Repr

/-- storage.py `save`, at the level of the raw record structure handed to
`tomli_w.dump`: one record per list, both keys always present. -/
def save (app : Doc) : List RawList :=
  app.map (fun tl => { name := some tl.name, items := some tl.items })

/-- storage.py `load`, at the level of the raw structure returned by
`tomllib.load`: `raw.get("lists", [])`, then per record
`lst_data.get("name", "")` and `lst_data.get("items", [])`. The top-level
`lists` key is optional. -/
def load (raw : Option (List RawList)) : Doc :=
  (raw.getD []).map (fun r => { name := r.name.getD "", items := r.items.getD [] })

end Storage

namespace Data

/-- Python list index resolution (`l[i]`, `l.pop(i)`): a negative index has
the length added once and must then be non-negative; a non-negative index
must be below the length. Out of range raises IndexError (`none`). -/
def pyIndex (n : Nat) (i : Int) : Option Nat :=
  if i < 0 then
    if 0 ≤ i + n then some (i + n).toNat else none
  else
    if i < n then some i.toNat else none

/-- Python `l.pop(i)`: the removed element and the remaining list; raises on
an unresolvable index, before any mutation. -/
def pyPop (l : List String) (i : Int) : Option (String × List String) :=
  match pyIndex l.length i with
  | none => none
  | some k =>
    match l[k]? with
    | none => none
    | some x => some (x, l.eraseIdx k)

/-- Python `l.insert(i, x)`: the effective position is the slice index — a
negative `i` has the length added and is then clamped at 0, a non-negative
`i` is clamped at the length. Never raises. -/
def pyInsert (l : List String) (i : Int) (x : String) : List String :=
  let k : Int := if i < 0 then max (i + l.length) 0 else min i (l.length : Int)
  l.insertIdx k.toNat x

/-- data.py `AppData.move_item`:
`item = self.lists[from_list].items.pop(from_index)` then
`self.lists[to_list].items.insert(to_index, item)`.
Returns the document after the mutations performed before any IndexError,
plus whether an IndexError was raised: a failing `to_list` lookup happens
after the pop, so the popped item is already gone. -/
def move_item (d : Doc) (from_list from_index to_list to_index : Int) : Doc × Bool :=
  match pyIndex d.length from_list with
  | none => (d, true)
  | some fl =>
    match d[fl]? with
    | none => (d, true)
    | some lst =>
      match pyPop lst.items from_index with
      | none => (d, true)
      | some (item, rest) =>
        let d1 := d.set fl { lst with items := rest }
        match pyIndex d1.length to_list with
        | none => (d1, true)
        | some tl =>
          match d1[tl]? with
          | none => (d1, true)
          | some dst => (d1.set tl { dst with items := pyInsert dst.items to_index item }, false)

/-- The item mutation inside data.py `AppData.move_item_to_top`:
`lst.items.insert(0, lst.items.pop(item_index))`, guarded by the
`item_index == 0` early return. -/
def promote_items (l : List String) (item_index : Int) : Option (List String) :=
  if item_index = 0 then some l
  else
    match pyPop l item_index with
    | none => none
    | some (x, rest) => some (x :: rest)

/-- data.py `AppData.move_item_to_top`: list lookup, early return at index
0, then pop-and-insert-at-0 on that list's items. -/
def move_item_to_top (d : Doc) (list_index item_index : Int) : Option Doc :=
  match pyIndex d.length list_index with
  | none => none
  | some li =>
    match d[li]? with
    | none => none
    | some lst =>
      match promote_items lst.items item_index with
      | none => none
      | some its => some (d.set li { lst with items := its })

end Data

namespace Window

/-- The inner loop of window.py `_on_cross_drop_received`: the first row of
a list whose UserRole text equals the dragged text. -/
def findFirstMatch (items : List String) (text : String) : Option Nat :=
  match items with
  | [] => none
  | x :: rest =>
    if x = text then some 0
    else (findFirstMatch rest text).map (· + 1)

/-- The outer loop of window.py `_on_cross_drop_received`, scanning tabs
from absolute index `i` upward, skipping the destination tab: the first
(list, row) pair whose text matches. -/
def scanSourceFrom : List TodoList → Nat → Nat → String → Option (Nat × Nat)
  | [], _, _, _ => none
  | tl :: rest, i, dest, text =>
    if i = dest then scanSourceFrom rest (i + 1) dest text
    else
      match findFirstMatch tl.items text with
      | some j => some (i, j)
      | none => scanSourceFrom rest (i + 1) dest text

/-- window.py `_on_cross_drop_received` source scan over the whole tab row. -/
def scanSource (d : Doc) (dest : Nat) (text : String) : Option (Nat × Nat) :=
  scanSourceFrom d 0 dest text

/-- window.py `_on_cross_drop_received`: resolve the source by text match;
with no match, fall back to a plain insert into the destination and push no
undo command; otherwise construct a `MoveItemBetweenListsCommand` and push
it (pushing executes its `redo`). Returns the resulting document and the
command pushed, if any. -/
def on_cross_drop_received (d : Doc) (dest to_index : Nat) (text : String) :
    Option Doc × Option Command :=
  match scanSource d dest text with
  | none => (onItems d dest (fun l => ListWidget.insert_item l to_index text), none)
  | some (fl, fi) =>
    let c := Command.moveItemBetweenLists fl fi dest to_index text
    (c.redo d, some c)

end Window

/-- Modelled from the spec: the Command Log (`QUndoStack` from Qt, which is
not part of this repository's sources) — a linear array of commands with a
cursor separating applied history from the redoable tail, together with the
document the commands mutate. -/
structure CommandLog where
  commands : List Command
  cursor : Nat
  doc : Doc
deriving DecidableEq, Repr

/-- Modelled from the spec: `execute(command)` calls `command.do()`,
truncates any existing redoable tail, appends the command and advances the
cursor to the end. -/
def CommandLog.push (log : CommandLog) (c : Command) : Option CommandLog :=
  match c.redo log.doc with
  | none => none
  | some d =>
    some { commands := log.commands.take log.cursor ++ [c], cursor := log.cursor + 1, doc := d }

/-- Modelled from the spec: `undo()` is a no-op at cursor 0, else decrements
the cursor and calls that command's `undo`. -/
def CommandLog.undo (log : CommandLog) : Option CommandLog :=
  if log.cursor = 0 then some log
  else
    match log.commands[log.cursor - 1]? with
    | none => some log
    | some c =>
      match c.undo log.doc with
      | none => none
      | some d => some { log with cursor := log.cursor - 1, doc := d }

/-- Modelled from the spec: `redo()` is a no-op at the end, else calls the
command at the cursor and increments the cursor. -/
def CommandLog.redo (log : CommandLog) : Option CommandLog :=
  match log.commands[log.cursor]? with
  | none => some log
  | some c =>
    match c.redo log.doc with
    | none => none
    | some d => some { log with cursor := log.cursor + 1, doc := d }

/-! ### Helper lemmas -/

lemma insertIdx_perm_cons {α : Type} (x : α) :
    ∀ (n : Nat) (l : List α), n ≤ l.length → (l.insertIdx n x).Perm (x :: l)
  | 0, l, _ => by simp
  | n + 1, [], h => by simp at h
  | n + 1, a :: as, h => by
    simp only [List.insertIdx_succ_cons]
    exact ((insertIdx_perm_cons x n as (Nat.le_of_succ_le_succ h)).cons a).trans
      (List.Perm.swap x a as)

lemma cons_eraseIdx_perm {α : Type} :
    ∀ (l : List α) (n : Nat) (x : α), l[n]? = some x → (x :: l.eraseIdx n).Perm l
  | [], n, x, h => by simp at h
  | a :: as, 0, x, h => by
    simp only [List.getElem?_cons_zero, Option.some.injEq] at h
    subst h
    simp [List.eraseIdx]
  | a :: as, n + 1, x, h => by
    simp only [List.getElem?_cons_succ] at h
    simpa [List.eraseIdx] using (List.Perm.swap a x (as.eraseIdx n)).trans
      ((cons_eraseIdx_perm as n x h).cons a)

lemma insertIdx_eraseIdx_self {α : Type} :
    ∀ (l : List α) (n : Nat) (x : α), l[n]? = some x → (l.eraseIdx n).insertIdx n x = l
  | [], n, x, h => by simp at h
  | a :: as, 0, x, h => by
    simp only [List.getElem?_cons_zero, Option.some.injEq] at h
    subst h
    simp [List.eraseIdx]
  | a :: as, n + 1, x, h => by
    simp only [List.getElem?_cons_succ] at h
    simpa [List.eraseIdx] using congrArg (a :: ·) (insertIdx_eraseIdx_self as n x h)

lemma set_eq_of_getElem? {α : Type} :
    ∀ (l : List α) (i : Nat) (a : α), l[i]? = some a → l.set i a = l
  | [], i, a, h => by simp at h
  | b :: bs, 0, a, h => by
    simp only [List.getElem?_cons_zero, Option.some.injEq] at h
    subst h
    rfl
  | b :: bs, i + 1, a, h => by
    simp only [List.getElem?_cons_succ] at h
    simpa [List.set] using congrArg (b :: ·) (set_eq_of_getElem? bs i a h)

lemma getElem?_set_self {α : Type} (l : List α) (i : Nat) (a : α) (h : i < l.length) :
    (l.set i a)[i]? = some a := by
  rw [List.getElem?_set_self']
  rw [List.getElem?_eq_getElem h]
  rfl

lemma eraseIdx_concat {α : Type} :
    ∀ (l : List α) (x : α), (l ++ [x]).eraseIdx l.length = l
  | [], x => rfl
  | a :: as, x => by
    simpa [List.eraseIdx] using congrArg (a :: ·) (eraseIdx_concat as x)

lemma length_eraseIdx_lt {α : Type} (l : List α) (i : Nat) (h : i < l.length) :
    (l.eraseIdx i).length = l.length - 1 := by
  rw [List.length_eraseIdx]
  simp [h]

lemma _move_row_perm (l : List String) (f t : Nat) (hf : f < l.length) :
    ∃ m, ListWidget._move_row l f t = some m ∧ m.Perm l ∧ m.length = l.length := by
  unfold ListWidget._move_row ListWidget.insertRow
  rw [List.getElem?_eq_getElem hf]
  refine ⟨_, rfl, ?_, ?_⟩
  · exact (insertIdx_perm_cons l[f] _ (l.eraseIdx f) (Nat.min_le_right _ _)).trans
      (cons_eraseIdx_perm l f l[f] (List.getElem?_eq_getElem hf))
  · exact ((insertIdx_perm_cons l[f] _ (l.eraseIdx f) (Nat.min_le_right _ _)).trans
      (cons_eraseIdx_perm l f l[f] (List.getElem?_eq_getElem hf))).length_eq

lemma _move_row_eq (l : List String) (f t : Nat) (hf : f < l.length) (ht : t ≤ l.length) :
    ListWidget._move_row l f t =
      some ((l.eraseIdx f).insertIdx (if t ≤ f then t else t - 1) l[f]) := by
  unfold ListWidget._move_row ListWidget.insertRow
  rw [List.getElem?_eq_getElem hf]
  have hlen : (l.eraseIdx f).length = l.length - 1 := length_eraseIdx_lt l f hf
  have hadj : (if t ≤ f then t else t - 1) ≤ (l.eraseIdx f).length := by
    rw [hlen]
    split <;> omega
  dsimp only
  rw [Nat.min_eq_left hadj]

lemma pyIndex_lt {n : Nat} {i : Int} {k : Nat} (h : Data.pyIndex n i = some k) : k < n := by
  unfold Data.pyIndex at h
  split at h
  · split at h
    · injection h with hk
      omega
    · cases h
  · split at h
    · injection h with hk
      omega
    · cases h

/-! ### Claim theorems -/

/-- C1: the inverse law fails on the code, so the claim that every command's
`do(); undo()` restores the prior snapshot is violated. For
`MoveItemToTopCommand` with captured original index 1 on the single list
`["A", "B"]`, `do()` promotes `"B"` giving `["B", "A"]`, but `undo()` —
`move_item_from_top(1)`, i.e. `_move_row(0, 1)`, whose target is adjusted to
0 after removal — leaves `["B", "A"]` instead of restoring `["A", "B"]`. -/
theorem C1_inverse_law_fails_moveItemToTop :
    ((Command.moveItemToTop 0 1).redo [⟨"L", ["A", "B"]⟩]).bind
        (Command.moveItemToTop 0 1).undo = some [⟨"L", ["B", "A"]⟩] ∧
      ([⟨"L", ["B", "A"]⟩] : Doc) ≠ [⟨"L", ["A", "B"]⟩] := by
  decide

/-- C4: the redo law fails on the code. For `MoveItemToTopCommand` with
captured index 1 on `["A", "B"]`, the snapshot immediately after `do()` is
`["B", "A"]`, but `do(); undo(); redo()` ends in `["A", "B"]` (the broken
`undo` is a no-op here, so the final `redo` re-promotes from the wrong
state). -/
theorem C4_redo_law_fails_moveItemToTop :
    (Command.moveItemToTop 0 1).redo [⟨"L", ["A", "B"]⟩] = some [⟨"L", ["B", "A"]⟩] ∧
      (((Command.moveItemToTop 0 1).redo [⟨"L", ["A", "B"]⟩]).bind
          (Command.moveItemToTop 0 1).undo).bind (Command.moveItemToTop 0 1).redo
        = some [⟨"L", ["A", "B"]⟩] ∧
      ([⟨"L", ["A", "B"]⟩] : Doc) ≠ [⟨"L", ["B", "A"]⟩] := by
  decide

/-- C2 (counterexample): the claim predicts `move_item_within_list(0, 2)` on
`[A, B, C, D]` yields `[B, C, A, D]`, but `reorder_item`/`_move_row` adjusts
the target after removal (`to_index - 1` when moving down) and yields
`[B, A, C, D]`. -/
theorem C2_counterexample_reorder_0_2 :
    ListWidget.reorder_item ["A", "B", "C", "D"] 0 2 = some ["B", "A", "C", "D"] ∧
      ListWidget.reorder_item ["A", "B", "C", "D"] 0 2 ≠ some ["B", "C", "A", "D"] := by
  decide

/-- C2 (amended): `reorder_item` interprets `to_index` against the sequence
before removal: it removes the item at `from_index` and reinserts it at
position `to_index` of the post-removal sequence when `to_index ≤
from_index`, and at `to_index - 1` otherwise. In particular `(2, 0)` on
`[A, B, C, D]` yields `[C, A, B, D]` and `(0, 2)` yields `[B, A, C, D]`. -/
theorem C2_amended_reorder_pre_removal_semantics (l : List String) (f t : Nat)
    (hf : f < l.length) (ht : t ≤ l.length) :
    ListWidget.reorder_item l f t =
      some ((l.eraseIdx f).insertIdx (if t ≤ f then t else t - 1) l[f]) :=
  _move_row_eq l f t hf ht

/-- C2 (witness): the amended semantics at the two concrete examples. -/
theorem C2_witness :
    ListWidget.reorder_item ["A", "B", "C", "D"] 2 0 = some ["C", "A", "B", "D"] ∧
      ListWidget.reorder_item ["A", "B", "C", "D"] 0 2 = some ["B", "A", "C", "D"] := by
  constructor
  · exact (C2_amended_reorder_pre_removal_semantics ["A", "B", "C", "D"] 2 0 (by decide)
      (by decide)).trans (by decide)
  · exact (C2_amended_reorder_pre_removal_semantics ["A", "B", "C", "D"] 0 2 (by decide)
      (by decide)).trans (by decide)

/-- C3: pushing a new command while the cursor is not at the end discards
the whole redoable tail, advances the cursor to the new end, and an
immediately subsequent `redo()` is a no-op leaving the log (in particular
the document) unchanged. -/
theorem C3_push_truncates_redo_branch (log : CommandLog) (c : Command) (log' : CommandLog)
    (hcur : log.cursor < log.commands.length)
    (hpush : log.push c = some log') :
    log'.commands = log.commands.take log.cursor ++ [c] ∧
      log'.cursor = log'.commands.length ∧
      log'.redo = some log' := by
  unfold CommandLog.push at hpush
  cases hredo : c.redo log.doc with
  | none => rw [hredo] at hpush; cases hpush
  | some dd =>
    rw [hredo] at hpush
    injection hpush with hlog
    subst hlog
    have hlen : (log.commands.take log.cursor ++ [c]).length = log.cursor + 1 := by
      simp [List.length_take]
      omega
    refine ⟨rfl, by simpa using hlen.symm, ?_⟩
    unfold CommandLog.redo
    rw [List.getElem?_eq_none (by simp [hlen])]

/-- C3 (witness): push after one (never redone) undo on a concrete log. -/
theorem C3_witness :
    CommandLog.push ⟨[Command.addItem 0 "A"], 0, [⟨"L", []⟩]⟩ (Command.addItem 0 "B")
        = some ⟨[Command.addItem 0 "B"], 1, [⟨"L", ["B"]⟩]⟩ ∧
      CommandLog.redo ⟨[Command.addItem 0 "B"], 1, [⟨"L", ["B"]⟩]⟩
        = some ⟨[Command.addItem 0 "B"], 1, [⟨"L", ["B"]⟩]⟩ := by
  have hp : CommandLog.push ⟨[Command.addItem 0 "A"], 0, [⟨"L", []⟩]⟩ (Command.addItem 0 "B")
      = some ⟨[Command.addItem 0 "B"], 1, [⟨"L", ["B"]⟩]⟩ := by decide
  have h := C3_push_truncates_redo_branch ⟨[Command.addItem 0 "A"], 0, [⟨"L", []⟩]⟩
    (Command.addItem 0 "B") ⟨[Command.addItem 0 "B"], 1, [⟨"L", ["B"]⟩]⟩ (by decide) hp
  exact ⟨hp, h.2.2⟩

/-- C6: round-trip persistence — loading the raw record structure written by
`save` yields a structurally equal document, for any number of lists
(including zero) and any item sequences (including empty). -/
theorem C6_save_load_roundtrip (d : Doc) : Storage.load (some (Storage.save d)) = d := by
  induction d with
  | nil => rfl
  | cons tl rest ih =>
    cases tl
    simp only [Storage.save, Storage.load, List.map_cons, Option.getD_some] at ih ⊢
    simpa using ih

/-- C9: every within-list move — `reorder_item` (any target), promotion via
`move_item_to_top`, its inverse `move_item_from_top`, and the item mutation
of data.py `move_item_to_top` — succeeds on in-range indices and only
permutes the list: the result is a permutation of the original (hence the
item count and the multiset of item texts are preserved and no text is
created, dropped, or altered). -/
theorem C9_within_list_moves_permute (l : List String) (f t i : Nat)
    (hf : f < l.length) (hi : i < l.length) :
    (∃ m, ListWidget.reorder_item l f t = some m ∧ m.Perm l ∧ m.length = l.length) ∧
      (∃ m, ListWidget.move_item_to_top l i = some m ∧ m.Perm l ∧ m.length = l.length) ∧
      (∃ m, ListWidget.move_item_from_top l i = some m ∧ m.Perm l ∧ m.length = l.length) ∧
      (∃ m, Data.promote_items l (i : Int) = some m ∧ m.Perm l ∧ m.length = l.length) := by
  have h0 : 0 < l.length := Nat.lt_of_le_of_lt (Nat.zero_le f) hf
  refine ⟨_move_row_perm l f t hf, ?_, _move_row_perm l 0 i h0, ?_⟩
  · unfold ListWidget.move_item_to_top
    split
    · exact ⟨l, rfl, List.Perm.refl l, rfl⟩
    · exact _move_row_perm l i 0 hi
  · unfold Data.promote_items
    split
    · exact ⟨l, rfl, List.Perm.refl l, rfl⟩
    · have hiz : ¬ i = 0 := by
        intro h
        subst h
        simp_all
      unfold Data.pyPop Data.pyIndex
      have hnn : ¬ ((i : Int) < 0) := by omega
      rw [if_neg hnn, if_pos (by exact_mod_cast hi)]
      simp only [Int.toNat_natCast]
      rw [List.getElem?_eq_getElem hi]
      exact ⟨_, rfl, cons_eraseIdx_perm l i l[i] (List.getElem?_eq_getElem hi),
        (cons_eraseIdx_perm l i l[i] (List.getElem?_eq_getElem hi)).length_eq⟩

/-- C9 (witness): the four operations on `["A", "B", "C"]` with `f = 2`,
`t = 0`, `i = 1` permute the list. -/
theorem C9_witness :
    ListWidget.reorder_item ["A", "B", "C"] 2 0 = some ["C", "A", "B"] ∧
      (["C", "A", "B"] : List String).Perm ["A", "B", "C"] := by
  obtain ⟨⟨m, hm, hperm, _⟩, -, -, -⟩ :=
    C9_within_list_moves_permute ["A", "B", "C"] 2 0 1 (by decide) (by decide)
  have hc : ListWidget.reorder_item ["A", "B", "C"] 2 0 = some ["C", "A", "B"] := by decide
  rw [hc] at hm
  injection hm with hm'
  exact ⟨hc, hm' ▸ hperm⟩

/-- C5: cross-list transfer between two distinct lists removes the source
item (later items shift left), inserts the carried text at the requested
position of the destination, leaves every other list untouched, and the
command's `undo` — `transfer_item` with the captured indices swapped —
restores the document exactly. -/
theorem C5_transfer_item_exact (d : Doc) (l0 l1 fi ti : Nat) (x : String)
    (tl0 tl1 : TodoList) (hne : l0 ≠ l1)
    (h0 : d[l0]? = some tl0) (h1 : d[l1]? = some tl1)
    (hx : tl0.items[fi]? = some x) (hti : ti ≤ tl1.items.length) :
    ∃ d', Window.transfer_item d l0 fi l1 ti x = some d' ∧
      d'[l0]? = some { tl0 with items := tl0.items.eraseIdx fi } ∧
      d'[l1]? = some { tl1 with items := tl1.items.insertIdx ti x } ∧
      (∀ j, j ≠ l0 → j ≠ l1 → d'[j]? = d[j]?) ∧
      Window.transfer_item d' l1 ti l0 fi x = some d := by
  obtain ⟨n0, i0⟩ := tl0
  obtain ⟨n1, i1⟩ := tl1
  simp only at hx hti
  have hl0 : l0 < d.length := (List.getElem?_eq_some.mp h0).1
  have hl1 : l1 < d.length := (List.getElem?_eq_some.mp h1).1
  have hfi : fi < i0.length := (List.getElem?_eq_some.mp hx).1
  set A : TodoList := ⟨n0, i0.eraseIdx fi⟩ with hA
  set B : TodoList := ⟨n1, i1.insertIdx ti x⟩ with hB
  have hstep1 : Window.onItems d l0 (fun l => ListWidget.remove_item l fi)
      = some (d.set l0 A) := by
    unfold Window.onItems
    rw [h0]
    rfl
  have hstep2 : Window.onItems (d.set l0 A) l1 (fun l => ListWidget.insert_item l ti x)
      = some ((d.set l0 A).set l1 B) := by
    unfold Window.onItems
    rw [List.getElem?_set_ne hne, h1]
    dsimp only
    unfold ListWidget.insert_item ListWidget.insertRow
    rw [Nat.min_eq_left hti]
  have hforward : Window.transfer_item d l0 fi l1 ti x = some ((d.set l0 A).set l1 B) := by
    unfold Window.transfer_item
    rw [h0, h1]
    dsimp only
    rw [hstep1]
    exact hstep2
  set d' : Doc := (d.set l0 A).set l1 B with hd'
  have hd'0 : d'[l0]? = some A := by
    rw [hd', List.getElem?_set_ne (Ne.symm hne)]
    exact getElem?_set_self d l0 A hl0
  have hd'1 : d'[l1]? = some B := by
    rw [hd']
    exact getElem?_set_self (d.set l0 A) l1 B (by simpa using hl1)
  have hothers : ∀ j, j ≠ l0 → j ≠ l1 → d'[j]? = d[j]? := by
    intro j hj0 hj1
    rw [hd', List.getElem?_set_ne (Ne.symm hj1), List.getElem?_set_ne (Ne.symm hj0)]
  have hback1 : Window.onItems d' l1 (fun l => ListWidget.remove_item l ti)
      = some (d'.set l1 ⟨n1, i1⟩) := by
    unfold Window.onItems
    rw [hd'1]
    dsimp only
    unfold ListWidget.remove_item
    rw [List.eraseIdx_insertIdx]
  have hback2 : Window.onItems (d'.set l1 ⟨n1, i1⟩) l0 (fun l => ListWidget.insert_item l fi x)
      = some ((d'.set l1 ⟨n1, i1⟩).set l0 ⟨n0, i0⟩) := by
    unfold Window.onItems
    rw [List.getElem?_set_ne (Ne.symm hne), hd'0]
    dsimp only
    unfold ListWidget.insert_item ListWidget.insertRow
    have hlen : (i0.eraseIdx fi).length = i0.length - 1 := length_eraseIdx_lt i0 fi hfi
    rw [Nat.min_eq_left (by omega)]
    rw [insertIdx_eraseIdx_self i0 fi x hx]
  have hrestore : (d'.set l1 ⟨n1, i1⟩).set l0 ⟨n0, i0⟩ = d := by
    rw [hd', List.set_set]
    rw [List.set_comm _ _ _ (Ne.symm hne)]
    rw [List.set_set]
    rw [set_eq_of_getElem? d l0 ⟨n0, i0⟩ h0]
    exact set_eq_of_getElem? d l1 ⟨n1, i1⟩ h1
  refine ⟨d', hforward, hd'0, hd'1, hothers, ?_⟩
  unfold Window.transfer_item
  rw [hd'1, hd'0]
  dsimp only
  rw [hback1]
  dsimp only
  rw [hback2, hrestore]

/-- C5 (witness): transferring the item at `(list 0, index 1)` with text
`"X"` to `(list 1, index 0)` and undoing it on a concrete document. -/
theorem C5_witness :
    Window.transfer_item [⟨"l0", ["A", "X", "B"]⟩, ⟨"l1", ["P"]⟩] 0 1 1 0 "X"
        = some [⟨"l0", ["A", "B"]⟩, ⟨"l1", ["X", "P"]⟩] ∧
      Window.transfer_item [⟨"l0", ["A", "B"]⟩, ⟨"l1", ["X", "P"]⟩] 1 0 0 1 "X"
        = some [⟨"l0", ["A", "X", "B"]⟩, ⟨"l1", ["P"]⟩] := by
  obtain ⟨d', h1, -, -, -, h5⟩ :=
    C5_transfer_item_exact [⟨"l0", ["A", "X", "B"]⟩, ⟨"l1", ["P"]⟩] 0 1 1 0 "X"
      ⟨"l0", ["A", "X", "B"]⟩ ⟨"l1", ["P"]⟩ (by decide) (by decide) (by decide)
      (by decide) (by decide)
  have hc : Window.transfer_item [⟨"l0", ["A", "X", "B"]⟩, ⟨"l1", ["P"]⟩] 0 1 1 0 "X"
      = some [⟨"l0", ["A", "B"]⟩, ⟨"l1", ["X", "P"]⟩] := by decide
  rw [hc] at h1
  injection h1 with h1'
  rw [← h1'] at h5
  exact ⟨hc, h5⟩

/-- C7 (counterexample): `AppData.move_item` called with `to_index = 100`
(outside `[0, 2)`) on a one-list document does not fail and does not leave
the document unchanged: Python `list.insert` clamps the position, so the
call silently succeeds and moves the item to the end. -/
theorem C7_counterexample_move_item_clamps :
    Data.move_item [⟨"L", ["A", "B"]⟩] 0 0 0 100 = ([⟨"L", ["B", "A"]⟩], false) ∧
      ([⟨"L", ["B", "A"]⟩] : Doc) ≠ [⟨"L", ["A", "B"]⟩] := by
  decide

/-- C7 (amended): `AppData.move_item` does not implement an
out-of-range-rejection policy. Once the source list and pop index resolve
under Python index semantics (which accept negative indices by
wraparound), any `to_list` that resolves — including negative ones — makes
the whole call succeed regardless of `to_index`, whose insertion position
is clamped rather than range-checked; and an unresolvable `to_list` raises
only after the pop, leaving the document partially mutated (the source item
already removed). -/
theorem C7_amended_move_item_no_range_policy (d : Doc)
    (from_list from_index to_list to_index : Int) (k j : Nat) (nm : String)
    (its : List String)
    (hfl : Data.pyIndex d.length from_list = some k)
    (hlst : d[k]? = some ⟨nm, its⟩)
    (hfi : Data.pyIndex its.length from_index = some j) :
    (∀ m, Data.pyIndex d.length to_list = some m →
        (Data.move_item d from_list from_index to_list to_index).2 = false) ∧
      (Data.pyIndex d.length to_list = none →
        Data.move_item d from_list from_index to_list to_index
            = (d.set k ⟨nm, its.eraseIdx j⟩, true) ∧
          d.set k ⟨nm, its.eraseIdx j⟩ ≠ d) := by
  have hj : j < its.length := pyIndex_lt hfi
  have hk : k < d.length := pyIndex_lt hfl
  unfold Data.move_item
  rw [hfl]
  dsimp only
  rw [hlst]
  dsimp only
  have hpop : Data.pyPop its from_index = some (its[j], its.eraseIdx j) := by
    unfold Data.pyPop
    rw [hfi]
    dsimp only
    rw [List.getElem?_eq_getElem hj]
  rw [hpop]
  dsimp only
  rw [List.length_set]
  constructor
  · intro m hm
    rw [hm]
    dsimp only
    have hm' : m < (d.set k (⟨nm, its.eraseIdx j⟩ : TodoList)).length := by
      rw [List.length_set]
      exact pyIndex_lt hm
    rw [List.getElem?_eq_getElem hm']
  · intro hnone
    rw [hnone]
    refine ⟨rfl, ?_⟩
    intro heq
    have h1 : (d.set k (⟨nm, its.eraseIdx j⟩ : TodoList))[k]? = some ⟨nm, its.eraseIdx j⟩ :=
      getElem?_set_self d k ⟨nm, its.eraseIdx j⟩ hk
    rw [heq, hlst] at h1
    injection h1 with h2
    have h3 : its = its.eraseIdx j := congrArg TodoList.items h2
    have h4 := length_eraseIdx_lt its j hj
    rw [← h3] at h4
    omega

/-- C7 (witness): with two lists `["A","B"]` and `[]`, a resolvable negative
`to_list = -1` makes the call succeed for an arbitrary `to_index = 7`, while
`to_list = 5` raises after the pop, leaving the popped item lost. -/
theorem C7_witness :
    (Data.move_item [⟨"L", ["A", "B"]⟩, ⟨"M", []⟩] 0 0 (-1) 7).2 = false ∧
      Data.move_item [⟨"L", ["A", "B"]⟩, ⟨"M", []⟩] 0 0 5 0
          = ([⟨"L", ["B"]⟩, ⟨"M", []⟩], true) ∧
      ([⟨"L", ["B"]⟩, ⟨"M", []⟩] : Doc) ≠ [⟨"L", ["A", "B"]⟩, ⟨"M", []⟩] := by
  have h1 := C7_amended_move_item_no_range_policy [⟨"L", ["A", "B"]⟩, ⟨"M", []⟩]
    0 0 (-1) 7 0 0 "L" ["A", "B"] (by decide) (by decide) (by decide)
  have h2 := C7_amended_move_item_no_range_policy [⟨"L", ["A", "B"]⟩, ⟨"M", []⟩]
    0 0 5 0 0 0 "L" ["A", "B"] (by decide) (by decide) (by decide)
  obtain ⟨h2a, h2b⟩ := h2.2 (by decide)
  refine ⟨h1.1 1 (by decide), h2a.trans (by decide), ?_⟩
  have hset : ([⟨"L", ["A", "B"]⟩, ⟨"M", []⟩] : Doc).set 0 ⟨"L", (["A", "B"] : List String).eraseIdx 0⟩
      = [⟨"L", ["B"]⟩, ⟨"M", []⟩] := by decide
  rw [hset] at h2b
  exact h2b

lemma mem_of_getElem?_eq_some {α : Type} {l : List α} {n : Nat} {a : α}
    (h : l[n]? = some a) : a ∈ l := by
  have h1 : n < l.length := (List.getElem?_eq_some.mp h).1
  have h2 : l[n] = a := by
    rw [List.getElem?_eq_getElem h1] at h
    exact Option.some.inj h
  exact h2 ▸ List.getElem_mem h1

lemma findFirstMatch_none_iff (items : List String) (text : String) :
    Window.findFirstMatch items text = none ↔ text ∉ items := by
  induction items with
  | nil => simp [Window.findFirstMatch]
  | cons x rest ih =>
    unfold Window.findFirstMatch
    by_cases hx : x = text
    · simp [hx]
    · rw [if_neg hx, Option.map_eq_none', ih]
      constructor
      · intro h hmem
        rcases List.mem_cons.mp hmem with h1 | h1
        · exact hx h1.symm
        · exact h h1
      · intro h hmem
        exact h (List.mem_cons.mpr (Or.inr hmem))

lemma findFirstMatch_some (items : List String) (text : String) :
    ∀ j, Window.findFirstMatch items text = some j →
      items[j]? = some text ∧ ∀ j', j' < j → items[j']? ≠ some text := by
  induction items with
  | nil => intro j h; simp [Window.findFirstMatch] at h
  | cons x rest ih =>
    intro j h
    unfold Window.findFirstMatch at h
    by_cases hx : x = text
    · rw [if_pos hx] at h
      injection h with hj
      subst hj
      exact ⟨by simp [hx], fun j' hj' => by omega⟩
    · rw [if_neg hx] at h
      cases hr : Window.findFirstMatch rest text with
      | none => rw [hr] at h; simp at h
      | some j0 =>
        rw [hr] at h
        simp only [Option.map_some'] at h
        injection h with hj
        subst hj
        obtain ⟨ha, hb⟩ := ih j0 hr
        refine ⟨by simpa using ha, ?_⟩
        intro j' hj'
        cases j' with
        | zero =>
          simp only [List.getElem?_cons_zero]
          intro hcontra
          exact hx (Option.some.inj hcontra)
        | succ j'' =>
          simp only [List.getElem?_cons_succ]
          exact hb j'' (by omega)

lemma scanSourceFrom_none_iff :
    ∀ (ls : List TodoList) (i dest : Nat) (text : String),
      Window.scanSourceFrom ls i dest text = none ↔
        ∀ k tl, ls[k]? = some tl → i + k ≠ dest → text ∉ tl.items := by
  intro ls
  induction ls with
  | nil => intro i dest text; simp [Window.scanSourceFrom]
  | cons tl0 rest ih =>
    intro i dest text
    unfold Window.scanSourceFrom
    by_cases hi : i = dest
    · rw [if_pos hi, ih (i + 1) dest text]
      constructor
      · intro h k tl hk hne
        cases k with
        | zero => exact absurd (by omega) hne
        | succ k' =>
          simp only [List.getElem?_cons_succ] at hk
          exact h k' tl hk (by omega)
      · intro h k tl hk hne
        exact h (k + 1) tl (by simpa using hk) (by omega)
    · rw [if_neg hi]
      cases hm : Window.findFirstMatch tl0.items text with
      | some j =>
        constructor
        · intro h
          cases h
        · intro h
          exfalso
          obtain ⟨ha, -⟩ := findFirstMatch_some tl0.items text j hm
          exact h 0 tl0 (by simp) (by omega) (mem_of_getElem?_eq_some ha)
      | none =>
        rw [ih (i + 1) dest text]
        constructor
        · intro h k tl hk hne
          cases k with
          | zero =>
            simp only [List.getElem?_cons_zero, Option.some.injEq] at hk
            subst hk
            exact (findFirstMatch_none_iff tl0.items text).mp hm
          | succ k' =>
            simp only [List.getElem?_cons_succ] at hk
            exact h k' tl hk (by omega)
        · intro h k tl hk hne
          exact h (k + 1) tl (by simpa using hk) (by omega)

lemma scanSourceFrom_some :
    ∀ (ls : List TodoList) (i dest : Nat) (text : String) (fl fi : Nat),
      Window.scanSourceFrom ls i dest text = some (fl, fi) →
        i ≤ fl ∧ fl ≠ dest ∧
        (∃ tl, ls[fl - i]? = some tl ∧ tl.items[fi]? = some text ∧
          ∀ j', j' < fi → tl.items[j']? ≠ some text) ∧
        ∀ k tl', k < fl - i → ls[k]? = some tl' → i + k ≠ dest → text ∉ tl'.items := by
  intro ls
  induction ls with
  | nil => intro i dest text fl fi h; simp [Window.scanSourceFrom] at h
  | cons tl0 rest ih =>
    intro i dest text fl fi h
    unfold Window.scanSourceFrom at h
    by_cases hi : i = dest
    · rw [if_pos hi] at h
      obtain ⟨h1, h2, ⟨tl, h3, h4, h5⟩, h6⟩ := ih (i + 1) dest text fl fi h
      refine ⟨by omega, h2, ⟨tl, ?_, h4, h5⟩, ?_⟩
      · have heq : fl - i = (fl - (i + 1)) + 1 := by omega
        rw [heq]
        simpa using h3
      · intro k tl' hk hget hne
        cases k with
        | zero => exact absurd (by omega) hne
        | succ k' =>
          simp only [List.getElem?_cons_succ] at hget
          exact h6 k' tl' (by omega) hget (by omega)
    · rw [if_neg hi] at h
      cases hm : Window.findFirstMatch tl0.items text with
      | some j =>
        rw [hm] at h
        injection h with hpair
        have hfl : i = fl := congrArg Prod.fst hpair
        have hfi : j = fi := congrArg Prod.snd hpair
        subst hfl
        subst hfi
        obtain ⟨ha, hb⟩ := findFirstMatch_some tl0.items text j hm
        refine ⟨Nat.le_refl i, hi, ⟨tl0, by simp [Nat.sub_self], ha, hb⟩, ?_⟩
        intro k tl' hk
        exact absurd hk (by omega)
      | none =>
        rw [hm] at h
        obtain ⟨h1, h2, ⟨tl, h3, h4, h5⟩, h6⟩ := ih (i + 1) dest text fl fi h
        refine ⟨by omega, h2, ⟨tl, ?_, h4, h5⟩, ?_⟩
        · have heq : fl - i = (fl - (i + 1)) + 1 := by omega
          rw [heq]
          simpa using h3
        · intro k tl' hk hget hne
          cases k with
          | zero =>
            simp only [List.getElem?_cons_zero, Option.some.injEq] at hget
            subst hget
            exact (findFirstMatch_none_iff tl0.items text).mp hm
          | succ k' =>
            simp only [List.getElem?_cons_succ] at hget
            exact h6 k' tl' (by omega) hget (by omega)

/-- C8 (counterexample): when the scan finds multiple candidates (both list
1 and list 2 contain the dragged text), the coordinator does not fall back
to an undo-less insert: it treats the first match in scan order as the
source and pushes an undoable `MoveItemBetweenLists` command. -/
theorem C8_counterexample_multiple_candidates :
    (Window.on_cross_drop_received [⟨"D", []⟩, ⟨"P", ["T"]⟩, ⟨"Q", ["T"]⟩] 0 0 "T").2
        = some (Command.moveItemBetweenLists 1 0 0 0 "T") ∧
      (Window.on_cross_drop_received [⟨"D", []⟩, ⟨"P", ["T"]⟩, ⟨"Q", ["T"]⟩] 0 0 "T").2 ≠ none ∧
      ([⟨"D", []⟩, ⟨"P", ["T"]⟩, ⟨"Q", ["T"]⟩] : Doc)[1]? = some ⟨"P", ["T"]⟩ ∧
      ([⟨"D", []⟩, ⟨"P", ["T"]⟩, ⟨"Q", ["T"]⟩] : Doc)[2]? = some ⟨"Q", ["T"]⟩ := by
  decide

/-- C8 (amended): when the scan over the other lists finds zero items whose
text equals the dragged text, the item is inserted into the destination
without creating an undo record; when one or more candidates exist, the
first match in scan order is treated as the source and an undoable
`MoveItemBetweenLists` command is pushed (its execution succeeding). -/
theorem C8_amended_cross_drop_resolution (d : Doc) (dest to_index : Nat) (text : String)
    (hdest_lt : dest < d.length) :
    ((∀ i tl, d[i]? = some tl → i ≠ dest → text ∉ tl.items) →
        Window.on_cross_drop_received d dest to_index text
            = (Window.onItems d dest (fun l => ListWidget.insert_item l to_index text), none) ∧
          ∃ d'', Window.onItems d dest (fun l => ListWidget.insert_item l to_index text)
            = some d'') ∧
      ((∃ i tl, d[i]? = some tl ∧ i ≠ dest ∧ text ∈ tl.items) →
        ∃ fl fi tl0 d',
          (Window.on_cross_drop_received d dest to_index text).2
              = some (Command.moveItemBetweenLists fl fi dest to_index text) ∧
            (Window.on_cross_drop_received d dest to_index text).1 = some d' ∧
            fl ≠ dest ∧ d[fl]? = some tl0 ∧ tl0.items[fi]? = some text ∧
            (∀ k tl', k < fl → d[k]? = some tl' → k ≠ dest → text ∉ tl'.items) ∧
            (∀ j', j' < fi → tl0.items[j']? ≠ some text)) := by
  have hd : d[dest]? = some d[dest] := List.getElem?_eq_getElem hdest_lt
  constructor
  · intro h
    have hscan : Window.scanSource d dest text = none :=
      (scanSourceFrom_none_iff d 0 dest text).mpr
        (fun k tl hk hne => h k tl hk (by omega))
    constructor
    · unfold Window.on_cross_drop_received
      rw [hscan]
    · exact ⟨d.set dest { d[dest] with items := ListWidget.insert_item (d[dest]).items to_index text },
        by unfold Window.onItems; rw [hd]⟩
  · rintro ⟨i, tl, hi, hne, hmem⟩
    have hscan_ne : Window.scanSource d dest text ≠ none := by
      intro hn
      exact (scanSourceFrom_none_iff d 0 dest text).mp hn i tl hi (by omega) hmem
    obtain ⟨⟨fl, fi⟩, hsome⟩ := Option.ne_none_iff_exists'.mp hscan_ne
    obtain ⟨-, h2, ⟨tl0, h3, h4, h5⟩, h6⟩ := scanSourceFrom_some d 0 dest text fl fi hsome
    have h3' : d[fl]? = some tl0 := by simpa using h3
    have hredo : ∃ d', Window.transfer_item d fl fi dest to_index text = some d' := by
      unfold Window.transfer_item
      rw [h3', hd]
      dsimp only
      have hrm : Window.onItems d fl (fun l => ListWidget.remove_item l fi)
          = some (d.set fl { tl0 with items := ListWidget.remove_item tl0.items fi }) := by
        unfold Window.onItems
        rw [h3']
      rw [hrm]
      dsimp only
      unfold Window.onItems
      rw [List.getElem?_set_ne h2, hd]
      exact ⟨_, rfl⟩
    obtain ⟨d', hd'⟩ := hredo
    refine ⟨fl, fi, tl0, d', ?_, ?_, h2, h3', h4, ?_, h5⟩
    · unfold Window.on_cross_drop_received
      rw [hsome]
    · unfold Window.on_cross_drop_received
      rw [hsome]
      exact hd'
    · intro k tl' hk hget hkne
      exact h6 k tl' (by omega) hget (by omega)

/-- C8 (witness): a drop with no matching text inserts into the destination
with no command pushed; a drop whose text has a (unique) match pushes the
command with the matched source. -/
theorem C8_witness :
    Window.on_cross_drop_received [⟨"D", ["K"]⟩, ⟨"P", ["T"]⟩] 0 0 "Z"
        = (some [⟨"D", ["Z", "K"]⟩, ⟨"P", ["T"]⟩], none) ∧
      (Window.on_cross_drop_received [⟨"D", ["K"]⟩, ⟨"P", ["T"]⟩] 0 1 "T").2
        = some (Command.moveItemBetweenLists 1 0 0 1 "T") := by
  have hyp : ∀ i tl, ([⟨"D", ["K"]⟩, ⟨"P", ["T"]⟩] : Doc)[i]? = some tl → i ≠ 0
      → "Z" ∉ tl.items := by
    intro i tl hi hne
    match i, hi with
    | 0, hi => exact absurd rfl hne
    | 1, hi =>
      simp only [List.getElem?_cons_succ, List.getElem?_cons_zero, Option.some.injEq] at hi
      subst hi
      decide
    | n + 2, hi => simp at hi
  have hzero :=
    (C8_amended_cross_drop_resolution [⟨"D", ["K"]⟩, ⟨"P", ["T"]⟩] 0 0 "Z" (by decide)).1 hyp
  exact ⟨hzero.1.trans (by decide), by decide⟩

/-- C10: `remove_last_item` on an empty list is a true no-op and on a
non-empty list removes exactly the last item, so `AddItemCommand.undo`
(`append_item` then `remove_last_item`) restores every prior list state. -/
theorem C10_remove_last_item_safe :
    ListWidget.remove_last_item ([] : List String) = [] ∧
      ∀ (l : List String) (x : String),
        ListWidget.remove_last_item (ListWidget.append_item l x) = l := by
  refine ⟨rfl, fun l x => ?_⟩
  unfold ListWidget.append_item ListWidget.remove_last_item
  rw [if_pos (by simp)]
  have hl : (l ++ [x]).length - 1 = l.length := by simp
  rw [hl, eraseIdx_concat]

end MyTodo
